import Mathlib

/-!
Shallow embedding of the essentia descriptor store (`src/src/base/pool.h`) and of the
RhythmTransform algorithm (`src/src/algorithms/rhythm/rhythmtransform.cpp`), together
with theorems settling the specification claims about them.

The C++ scalar type `Real` (a float) is modelled by the integers: every value the
claims manipulate undergoes only exact ring operations (first differences and
squaring), and an integer scalar lets every concrete scenario be evaluated by
`decide`.  Floating-point rounding and non-finite values are outside the embedding.

C++ code that can throw is modelled with `Except`; an out-of-bounds vector access
(undefined behaviour in C++) is modelled as an explicit error constructor at the
exact place the access happens in the source.
-/

/-- The C++ `Real` scalar type of essentia. -/
abbrev EssReal := ℤ

/-- A `StereoSample` is a pair of `Real`s. -/
abbrev StereoSampleT := EssReal × EssReal

/-- A `TNT::Array2D<Real>`, modelled as a list of rows. -/
abbrev Arr2DReal := List (List EssReal)

/-- The contents of one sub-container: `std::map<std::string, T>` modelled as an
association list with `std::map` insert-or-assign semantics (`mset`) and find
semantics (`mget`). -/
abbrev AMap (α : Type) := List (String × α)

/-- `std::map::find`. -/
def mget {α : Type} : AMap α → String → Option α
  | [], _ => none
  | (k, v) :: rest, n => if k = n then some v else mget rest n

/-- `std::map::operator[] = value` (insert-or-assign). -/
def mset {α : Type} : AMap α → String → α → AMap α
  | [], n, v => [(n, v)]
  | (k, w) :: rest, n, v => if k = n then (n, v) :: rest else (k, w) :: mset rest n v

/-- The keys of a sub-container. -/
def mkeys {α : Type} (m : AMap α) : List String := m.map Prod.fst

/-- The failure taxonomy of the store (spec section 7). -/
inductive PoolError
  | TypeConflict
  | NamespaceConflict
  | NotFound
  | Unsupported
deriving DecidableEq

/-- The `Pool` of pool.h: nine sub-containers, three single-valued and six
accumulating, in the order of the lock-order documentation comment. -/
structure Pool where
  poolReal : AMap (List EssReal)
  poolVectorReal : AMap (List (List EssReal))
  poolString : AMap (List String)
  poolVectorString : AMap (List (List String))
  poolArray2DReal : AMap (List Arr2DReal)
  poolStereoSample : AMap (List StereoSampleT)
  poolSingleReal : AMap EssReal
  poolSingleString : AMap String
  poolSingleVectorReal : AMap (List EssReal)
deriving DecidableEq

/-- A freshly constructed (empty) pool. -/
def Pool.empty : Pool := ⟨[], [], [], [], [], [], [], [], []⟩

/-- Whether one descriptor name lies strictly inside the namespace of another
(either direction): `a` is a strict namespace parent of `b` or vice versa. -/
def nsRelated (a b : String) : Bool :=
  b.startsWith (a ++ ".") || a.startsWith (b ++ ".")

/-- Whether `name` namespace-clashes with any *other* existing descriptor name. -/
def nsConflict (name : String) (names : List String) : Bool :=
  names.any fun d => decide (d ≠ name) && nsRelated name d

/-- Modelled from the spec: `Pool::validateKey` (pool.cpp is not under src/).
Per spec section 4.1 an insertion under a name that is new to the calling
sub-container fails with TypeConflict if the name already exists under a
different kind/mode (i.e. in one of the other sub-containers), and with
NamespaceConflict if the name clashes with the namespace hierarchy (I2).
`others` are the names of all other sub-containers, `allNames` all existing
descriptor names. -/
def validKey (others allNames : List String) (name : String) : Except PoolError Unit :=
  if name ∈ others then .error .TypeConflict
  else if nsConflict name allNames then .error .NamespaceConflict
  else .ok ()

/-- Modelled from the spec: `Pool::add` on one accumulating sub-container
(pool.cpp is not under src/).  Per spec section 4.1, `add` fails with
TypeConflict if the name exists under a different kind/mode, with
NamespaceConflict on an I2 violation, and otherwise appends the value to the
sequence stored under the name (creating it if absent).  `validityCheck`
defaults to false and is not modelled (non-finite scalars do not exist here). -/
def addAcc {α : Type} (others : List String) (own : AMap (List α)) (name : String) (v : α) :
    Except PoolError (AMap (List α)) :=
  match validKey others (others ++ mkeys own) name with
  | .error e => .error e
  | .ok _ => .ok (mset own name ((mget own name).getD [] ++ [v]))

/-- Embedding of `SPECIALIZE_APPEND` from pool.h: if the name is already in the
calling sub-container, concatenate the new values after the stored ones and
return; otherwise (under GLOBAL_LOCK) validate the key and insert the values as
the new stored sequence. -/
def appendAcc {α : Type} (others : List String) (own : AMap (List α)) (name : String)
    (values : List α) : Except PoolError (AMap (List α)) :=
  match mget own name with
  | some v => .ok (mset own name (v ++ values))
  | none =>
    match validKey others (others ++ mkeys own) name with
    | .error e => .error e
    | .ok _ => .ok (mset own name values)

/-- Names stored in every sub-container except `_poolReal`. -/
def Pool.otherNamesReal (p : Pool) : List String :=
  mkeys p.poolVectorReal ++ mkeys p.poolString ++ mkeys p.poolVectorString ++
  mkeys p.poolArray2DReal ++ mkeys p.poolStereoSample ++ mkeys p.poolSingleReal ++
  mkeys p.poolSingleString ++ mkeys p.poolSingleVectorReal

/-- Names stored in every sub-container except `_poolVectorReal`. -/
def Pool.otherNamesVectorReal (p : Pool) : List String :=
  mkeys p.poolReal ++ mkeys p.poolString ++ mkeys p.poolVectorString ++
  mkeys p.poolArray2DReal ++ mkeys p.poolStereoSample ++ mkeys p.poolSingleReal ++
  mkeys p.poolSingleString ++ mkeys p.poolSingleVectorReal

/-- Names stored in every sub-container except `_poolString`. -/
def Pool.otherNamesString (p : Pool) : List String :=
  mkeys p.poolReal ++ mkeys p.poolVectorReal ++ mkeys p.poolVectorString ++
  mkeys p.poolArray2DReal ++ mkeys p.poolStereoSample ++ mkeys p.poolSingleReal ++
  mkeys p.poolSingleString ++ mkeys p.poolSingleVectorReal

/-- Names stored in every sub-container except `_poolVectorString`. -/
def Pool.otherNamesVectorString (p : Pool) : List String :=
  mkeys p.poolReal ++ mkeys p.poolVectorReal ++ mkeys p.poolString ++
  mkeys p.poolArray2DReal ++ mkeys p.poolStereoSample ++ mkeys p.poolSingleReal ++
  mkeys p.poolSingleString ++ mkeys p.poolSingleVectorReal

/-- Names stored in every sub-container except `_poolStereoSample`. -/
def Pool.otherNamesStereoSample (p : Pool) : List String :=
  mkeys p.poolReal ++ mkeys p.poolVectorReal ++ mkeys p.poolString ++
  mkeys p.poolVectorString ++ mkeys p.poolArray2DReal ++ mkeys p.poolSingleReal ++
  mkeys p.poolSingleString ++ mkeys p.poolSingleVectorReal

/-- `Pool::validateKey` as reached from an operation on `_poolReal`. -/
def Pool.validKeyReal (p : Pool) (name : String) : Except PoolError Unit :=
  validKey p.otherNamesReal (p.otherNamesReal ++ mkeys p.poolReal) name

/-- `Pool::validateKey` as reached from an operation on `_poolVectorReal`. -/
def Pool.validKeyVectorReal (p : Pool) (name : String) : Except PoolError Unit :=
  validKey p.otherNamesVectorReal (p.otherNamesVectorReal ++ mkeys p.poolVectorReal) name

/-- `Pool::validateKey` as reached from an operation on `_poolString`. -/
def Pool.validKeyString (p : Pool) (name : String) : Except PoolError Unit :=
  validKey p.otherNamesString (p.otherNamesString ++ mkeys p.poolString) name

/-- `Pool::validateKey` as reached from an operation on `_poolVectorString`. -/
def Pool.validKeyVectorString (p : Pool) (name : String) : Except PoolError Unit :=
  validKey p.otherNamesVectorString (p.otherNamesVectorString ++ mkeys p.poolVectorString) name

/-- `Pool::validateKey` as reached from an operation on `_poolStereoSample`. -/
def Pool.validKeyStereoSample (p : Pool) (name : String) : Except PoolError Unit :=
  validKey p.otherNamesStereoSample (p.otherNamesStereoSample ++ mkeys p.poolStereoSample) name

/-- `Pool::add(name, Real)`. -/
def Pool.addReal (p : Pool) (n : String) (v : EssReal) : Except PoolError Pool :=
  (addAcc p.otherNamesReal p.poolReal n v).map fun m => { p with poolReal := m }

/-- `Pool::add(name, vector<Real>)`. -/
def Pool.addVectorReal (p : Pool) (n : String) (v : List EssReal) : Except PoolError Pool :=
  (addAcc p.otherNamesVectorReal p.poolVectorReal n v).map fun m => { p with poolVectorReal := m }

/-- `Pool::add(name, string)`. -/
def Pool.addString (p : Pool) (n : String) (v : String) : Except PoolError Pool :=
  (addAcc p.otherNamesString p.poolString n v).map fun m => { p with poolString := m }

/-- `Pool::add(name, vector<string>)`. -/
def Pool.addVectorString (p : Pool) (n : String) (v : List String) : Except PoolError Pool :=
  (addAcc p.otherNamesVectorString p.poolVectorString n v).map fun m =>
    { p with poolVectorString := m }

/-- `Pool::add(name, StereoSample)`. -/
def Pool.addStereoSample (p : Pool) (n : String) (v : StereoSampleT) : Except PoolError Pool :=
  (addAcc p.otherNamesStereoSample p.poolStereoSample n v).map fun m =>
    { p with poolStereoSample := m }

/-- `Pool::append<Real>` (pool.h, SPECIALIZE_APPEND(Real, Real)). -/
def Pool.appendReal (p : Pool) (n : String) (vs : List EssReal) : Except PoolError Pool :=
  (appendAcc p.otherNamesReal p.poolReal n vs).map fun m => { p with poolReal := m }

/-- `Pool::append<vector<Real>>` (SPECIALIZE_APPEND(std::vector<Real>, VectorReal)). -/
def Pool.appendVectorReal (p : Pool) (n : String) (vs : List (List EssReal)) :
    Except PoolError Pool :=
  (appendAcc p.otherNamesVectorReal p.poolVectorReal n vs).map fun m =>
    { p with poolVectorReal := m }

/-- `Pool::append<string>` (SPECIALIZE_APPEND(std::string, String)). -/
def Pool.appendString (p : Pool) (n : String) (vs : List String) : Except PoolError Pool :=
  (appendAcc p.otherNamesString p.poolString n vs).map fun m => { p with poolString := m }

/-- `Pool::append<vector<string>>` (SPECIALIZE_APPEND(std::vector<std::string>, VectorString)). -/
def Pool.appendVectorString (p : Pool) (n : String) (vs : List (List String)) :
    Except PoolError Pool :=
  (appendAcc p.otherNamesVectorString p.poolVectorString n vs).map fun m =>
    { p with poolVectorString := m }

/-- `Pool::append<StereoSample>` (SPECIALIZE_APPEND(StereoSample, StereoSample)). -/
def Pool.appendStereoSample (p : Pool) (n : String) (vs : List StereoSampleT) :
    Except PoolError Pool :=
  (appendAcc p.otherNamesStereoSample p.poolStereoSample n vs).map fun m =>
    { p with poolStereoSample := m }

/-- `Pool::append<TNT::Array2D<Real>>`: there is no SPECIALIZE_APPEND for
`Array2D<Real>`, so the call lands in the generic template of pool.h, which
unconditionally throws "Pool::append not implemented for type". -/
def Pool.append2DReal (_p : Pool) (_n : String) (_vs : List Arr2DReal) :
    Except PoolError Pool :=
  .error .Unsupported

/-- The pool a caller is left with after an operation: the new pool on success,
the old pool when the operation threw (a C++ throw leaves the object as it was). -/
def runOp (p : Pool) (r : Except PoolError Pool) : Pool :=
  match r with
  | .ok q => q
  | .error _ => p

/-- `Pool::value<vector<Real>>` (pool.h): probes `_poolReal` first, then
`_poolSingleVectorReal`, and throws a not-found error if the name is in
neither. -/
def Pool.value_vr (p : Pool) (n : String) : Except PoolError (List EssReal) :=
  match mget p.poolReal n with
  | some v => .ok v
  | none =>
    match mget p.poolSingleVectorReal n with
    | some v => .ok v
    | none => .error .NotFound

/-- `Pool::contains<vector<Real>>` (pool.h): true iff the name is in
`_poolReal` or in `_poolSingleVectorReal`. -/
def Pool.contains_vr (p : Pool) (n : String) : Bool :=
  match mget p.poolReal n with
  | some _ => true
  | none => (mget p.poolSingleVectorReal n).isSome

/-- `Pool::value<vector<vector<Real>>>` (pool.h, SPECIALIZE_VALUE on the
VectorReal sub-container). -/
def Pool.value_vvr (p : Pool) (n : String) : Except PoolError (List (List EssReal)) :=
  match mget p.poolVectorReal n with
  | some v => .ok v
  | none => .error .NotFound

/-- Modelled from the spec: `Pool::clear` (pool.cpp is not under src/) empties
every sub-container. -/
def Pool.clear (_p : Pool) : Pool := Pool.empty

/-- The nine sub-containers, as lock identities. -/
inductive SubPool
  | sReal
  | sVectorReal
  | sString
  | sVectorString
  | sArray2DReal
  | sStereoSample
  | sSingleReal
  | sSingleString
  | sSingleVectorReal
deriving DecidableEq

/-- The position of each sub-container's mutex in the documented global order. -/
def lockIdx : SubPool → ℕ
  | .sReal => 0
  | .sVectorReal => 1
  | .sString => 2
  | .sVectorString => 3
  | .sArray2DReal => 4
  | .sStereoSample => 5
  | .sSingleReal => 6
  | .sSingleString => 7
  | .sSingleVectorReal => 8

/-- The acquisition sequence of the GLOBAL_LOCK macro in pool.h: all nine
mutexes, in the fixed documented order. -/
def globalLockOrder : List SubPool :=
  [.sReal, .sVectorReal, .sString, .sVectorString, .sArray2DReal,
   .sStereoSample, .sSingleReal, .sSingleString, .sSingleVectorReal]

/-- Modelled from the spec: the lock-acquisition trace of `Pool::clear`
(pool.cpp is not under src/); per spec section 4.1 it takes all nine locks in
the fixed order, i.e. the GLOBAL_LOCK sequence. -/
def clearLockTrace : List SubPool := globalLockOrder

/-- Modelled from the spec: the lock-acquisition trace of `Pool::checkIntegrity`
(pool.cpp is not under src/); per spec section 4.1 it takes all nine locks in
the fixed order. -/
def integrityLockTrace : List SubPool := globalLockOrder

/-- Modelled from the spec: the lock-acquisition trace of the cross-store
`Pool::merge` (pool.cpp is not under src/); per spec section 4.1 it takes all
nine locks in the fixed order. -/
def mergeLockTrace : List SubPool := globalLockOrder

/-- The lock-acquisition trace of the insert-new-name path of `Pool::append`
(pool.h, SPECIALIZE_APPEND): the probing lock on the own sub-container has been
released when the slow path starts, which then holds exactly the GLOBAL_LOCK
sequence. -/
def appendNewNameLockTrace : List SubPool := globalLockOrder

/-- Locks are released by `MutexLocker` destructors, which run in reverse scope
order: the release trace of a lock trace is its reverse. -/
def releasesOf (t : List SubPool) : List SubPool := t.reverse

/-- Whether two lock-acquisition traces admit a two-party deadlock: each party
is blocked requesting a lock (position `k1` resp. `k2` in its trace) that the
other already holds (an earlier position of the other trace). -/
def crossWaitB (t1 t2 : List SubPool) : Bool :=
  (List.range t1.length).any fun k1 =>
    (List.range t2.length).any fun k2 =>
      decide (t1.getD k1 .sReal ∈ t2.take k2) && decide (t2.getD k2 .sReal ∈ t1.take k1)

/-- The two configuration parameters of RhythmTransform
(`parameter("frameSize")`, `parameter("hopSize")`; two positive integers per
spec section 6). -/
structure RTConfig where
  frameSize : ℕ
  hopSize : ℕ
deriving DecidableEq

/-- Indexing a `vector<Real>`: `v[i]` for an index the algorithm keeps in
bounds (the default is never observed under the well-formedness hypotheses of
the theorems below). -/
def getQ (l : List EssReal) (i : ℕ) : EssReal := l.getD i 0

/-- `bands[frame][band]` of RhythmTransform::compute. -/
def bandVal (bands : List (List EssReal)) (frame band : ℕ) : EssReal :=
  getQ (bands.getD frame []) band

/-- The derive-and-transpose loop of RhythmTransform::compute (rhythmtransform.cpp):
for each `band < nBands`, a sequence of length `nFrames` with `derivTemp[0] = 0`
and `derivTemp[frame] = bands[frame][band] - bands[frame-1][band]` for
`frame > 0`. -/
def bandsDerivative (bands : List (List EssReal)) (nBands : ℕ) : List (List EssReal) :=
  (List.range nBands).map fun band =>
    (List.range bands.length).map fun frame =>
      if frame = 0 then 0 else bandVal bands frame band - bandVal bands (frame - 1) band

/-- The while-loop control of RhythmTransform::compute: starting at `i = 0` and
stepping by `hop`, collect every start offset `i` with `i < n`.  The fuel
argument only bounds the iteration count: with `hop ≥ 1` the loop body runs at
most `n` times, so `windowStarts` below gives it fuel `n` (the C++ loop does
not terminate when `hopSize = 0`). -/
def windowStartsAux (hop n : ℕ) : ℕ → ℕ → List ℕ
  | _, 0 => []
  | i, fuel + 1 => if i < n then i :: windowStartsAux hop n (i + hop) fuel else []

/-- The list of window start offsets visited by the while-loop of
RhythmTransform::compute. -/
def windowStarts (hop n : ℕ) : List ℕ :=
  windowStartsAux hop n 0 n

/-- The `rhythmFrame` built for one band at window start `i`
(rhythmtransform.cpp): `rhythmFrame[j] = bandsDerivative[band][i+j]` while
`i + j < nFrames`, and `0` (zero-padding) beyond. -/
def rhythmFrame (deriv : List (List EssReal)) (frameSize nFrames band i : ℕ) :
    List EssReal :=
  (List.range frameSize).map fun j =>
    if i + j < nFrames then getQ (deriv.getD band []) (i + j) else 0

/-- The inner bin loop of RhythmTransform::compute:
`bandSpectrum[bin] = rhythmSpectrum[bin] * rhythmSpectrum[bin]` for
`bin < rhythmSpectrum.size()`, the remaining bins of `bandSpectrum` keeping
their previous values.  (A `rhythmSpectrum` longer than `bandSpectrum` would be
an out-of-bounds write in the C++; the extra writes are dropped here and the
theorems assume the spectrum collaborator honours its length contract.) -/
def writeBins (dst src : List EssReal) : List EssReal :=
  (List.range dst.length).map fun bin =>
    if bin < src.length then getQ src bin * getQ src bin else getQ dst bin

/-- The squared spectrum `rhythmSpectrum[bin] * rhythmSpectrum[bin]` computed
for one band at window start `i`, where `w` is the windowing collaborator and
`sp` the spectrum collaborator (both external, spec section 6). -/
def bandSqSpectrum (cfg : RTConfig) (w sp : List EssReal → List EssReal)
    (deriv : List (List EssReal)) (nFrames band i : ℕ) : List EssReal :=
  (sp (w (rhythmFrame deriv cfg.frameSize nFrames band i))).map fun x => x * x

/-- The per-window body of RhythmTransform::compute: `bandSpectrum` starts as
`frameSize/2 + 1` zeros and the band loop writes each band's squared spectrum
into it in turn (each band overwriting the bins written by the previous one). -/
def windowEntry (cfg : RTConfig) (w sp : List EssReal → List EssReal)
    (deriv : List (List EssReal)) (nFrames nBands i : ℕ) : List EssReal :=
  (List.range nBands).foldl
    (fun acc band => writeBins acc (sp (w (rhythmFrame deriv cfg.frameSize nFrames band i))))
    (List.replicate (cfg.frameSize / 2 + 1) 0)

/-- The failure mode of the batch computation. -/
inductive RTError
  | emptyBandsAccess
deriving DecidableEq

/-- `standard::RhythmTransform::compute` (rhythmtransform.cpp): reads
`nFrames = bands.size()` and `nBands = bands[0].size()` — on an empty input the
latter is an out-of-bounds access of the nonexistent first frame (undefined
behaviour in C++), modelled as `RTError.emptyBandsAccess` — then derives and
transposes, and for each window start pushes the band-loop result. -/
def computeRT (cfg : RTConfig) (w sp : List EssReal → List EssReal)
    (bands : List (List EssReal)) : Except RTError (List (List EssReal)) :=
  if bands.length = 0 then .error .emptyBandsAccess
  else
    .ok ((windowStarts cfg.hopSize bands.length).map fun i =>
      windowEntry cfg w sp (bandsDerivative bands (bands.headD []).length)
        bands.length (bands.headD []).length i)

/-- The errors `streaming::RhythmTransform::process` can raise. -/
inductive ProcError
  | poolErr (e : PoolError)
  | noInputNamed (n : String)
  | computeErr (e : RTError)
deriving DecidableEq

/-- Modelled from the spec: the scheduler statuses used by the stage protocol
(types.h is not under src/); spec section 4.4 names PASS (defer) and OK (one
batch emitted). -/
inductive AlgorithmStatus
  | OK
  | PASS
deriving DecidableEq

/-- Modelled from the spec: the declared ports of the wrapped standard
RhythmTransform algorithm (rhythmtransform.h is not under src/).  Per spec
sections 4.5 and 6 the batch algorithm consumes one input of mel-band frames
and produces one output of rhythm frames; the streaming wrapper in
rhythmtransform.cpp declares the same port names, "melBands" for the input and
"rhythm" for the output. -/
def stdRTInputNames : List String := ["melBands"]

/-- Modelled from the spec: looking a port up by name on the wrapped algorithm
(the Algorithm base class is not under src/).  Looking up a name the algorithm
does not declare among its ports of that direction is an error. -/
def findInput (names : List String) (n : String) : Except ProcError Unit :=
  if n ∈ names then .ok () else .error (.noInputNamed n)

/-- The state of one `streaming::RhythmTransform` stage: its private pool
buffer and the framework's completion signal (`shouldStop()`). -/
structure RTStreamStage where
  pool : Pool
  stopFlag : Bool
deriving DecidableEq

/-- A freshly constructed (Idle) stage. -/
def RTStreamStage.init : RTStreamStage := ⟨Pool.empty, false⟩

/-- Modelled from the spec: `PoolStorage<vector<Real>>` (poolstorage.h is not
under src/), the StreamSinkAdapter of spec section 4.3: each pushed frame is
an accumulating add under the fixed internal key "internal.mel_bands".  The
pool is private to the stage and holds only this key, so the add never fails
in reachable states; on the unreachable failure the frame is dropped. -/
def RTStreamStage.push (s : RTStreamStage) (frame : List EssReal) : RTStreamStage :=
  match s.pool.addVectorReal "internal.mel_bands" frame with
  | .ok p => { s with pool := p }
  | .error _ => s

/-- Pushing a whole sequence of frames, in order. -/
def pushAll (s : RTStreamStage) (fs : List (List EssReal)) : RTStreamStage :=
  fs.foldl RTStreamStage.push s

/-- The framework signalling completion to the stage (`shouldStop()` becomes
true). -/
def signalComplete (s : RTStreamStage) : RTStreamStage := { s with stopFlag := true }

/-- `streaming::RhythmTransform::process` (rhythmtransform.cpp): while
`shouldStop()` is false, return PASS without touching the pool and without
pushing; once completion is signalled, read the buffered frames from the pool,
bind the wrapped algorithm's ports — the source binds the melBands buffer to
`input("melBands")` and then the result buffer to `input("rhythm")` — run the
batch computation, push the single result, and return OK.  The returned triple
is (status, items pushed downstream, new stage state). -/
def RTprocess (cfg : RTConfig) (w sp : List EssReal → List EssReal) (s : RTStreamStage) :
    Except ProcError (AlgorithmStatus × List (List (List EssReal)) × RTStreamStage) :=
  if s.stopFlag = false then .ok (.PASS, [], s)
  else
    match s.pool.value_vvr "internal.mel_bands" with
    | .error e => .error (.poolErr e)
    | .ok bands =>
      match findInput stdRTInputNames "melBands" with
      | .error e => .error e
      | .ok _ =>
        match findInput stdRTInputNames "rhythm" with
        | .error e => .error e
        | .ok _ =>
          match computeRT cfg w sp bands with
          | .error e => .error (.computeErr e)
          | .ok out => .ok (.OK, [out], s)

/-- `streaming::RhythmTransform::reset` (rhythmtransform.cpp): resets the
composite scheduler state (the completion flag) and clears the private pool via
`Pool::clear`. -/
def RTreset (s : RTStreamStage) : RTStreamStage := ⟨s.pool.clear, false⟩

/-- One add of the "repeated add" a bulk append is compared against, at the
sub-container level; a previous failure propagates (each later C++ `add` call
would throw the same way). -/
def accStep {α : Type} (others : List String) (name : String) :
    Except PoolError (AMap (List α)) → α → Except PoolError (AMap (List α))
  | .error e, _ => .error e
  | .ok m, v => addAcc others m name v

/-- One add of the "repeated add" at the pool level. -/
def poolStep {β : Type} (addOp : Pool → String → β → Except PoolError Pool) (n : String) :
    Except PoolError Pool → β → Except PoolError Pool
  | .error e, _ => .error e
  | .ok q, v => addOp q n v

/-- The worked-example input of spec section 8: 4 frames over 3 bands. -/
def scenarioBands : List (List EssReal) := [[1, 2, 3], [2, 2, 3], [4, 2, 5], [4, 2, 5]]

/-- A concrete windowing collaborator (the identity window). -/
def wId : List EssReal → List EssReal := fun f => f

/-- A concrete spectrum collaborator honouring the length contract for
`frameSize = 2`: two bins, the sum and the difference of the two samples
(distinct bands thus get distinct spectra in the worked example). -/
def spProbe : List EssReal → List EssReal := fun f => [getQ f 0 + getQ f 1, getQ f 0 - getQ f 1]

/-- Claim C1 as stated: the batch output has one entry per window position and
each entry contains, for every band, that band's sequence of squared spectral
bins (formalised in the weakest reasonable sense: every squared bin of every
band occurs in the entry — refuting this refutes every stronger reading). -/
def claimC1Prop (cfg : RTConfig) (w sp : List EssReal → List EssReal)
    (bands : List (List EssReal)) : Prop :=
  ∃ out, computeRT cfg w sp bands = .ok out ∧
    out.length = (windowStarts cfg.hopSize bands.length).length ∧
    ∀ k, k < out.length → ∀ b, b < (bands.headD []).length →
      ∀ x ∈ bandSqSpectrum cfg w sp (bandsDerivative bands (bands.headD []).length)
          bands.length b ((windowStarts cfg.hopSize bands.length).getD k 0),
        x ∈ out.getD k []

/-- Claim C2 as stated: for every configuration of positive `frameSize` and
`hopSize` and every frame count `n ≥ 1`, the window start offsets are exactly
the multiples of `hopSize` below `n`, positions past the end are zero-filled,
and the entire input is covered by the windows. -/
def claimC2Prop : Prop :=
  ∀ fs hop n : ℕ, 1 ≤ fs → 1 ≤ hop → 1 ≤ n →
    (∀ s, s ∈ windowStarts hop n ↔ ∃ k, s = k * hop ∧ s < n) ∧
    (∀ (deriv : List (List EssReal)) (band i j : ℕ), j < fs →
      (rhythmFrame deriv fs n band i).getD j 0 =
        if i + j < n then getQ (deriv.getD band []) (i + j) else 0) ∧
    (∀ d, d < n → ∃ s ∈ windowStarts hop n, ∃ j, j < fs ∧ s + j = d)

/-- Claim C8 as stated (its operative clause): on a frame count of 0 the batch
transform does not read the band count of the nonexistent first frame. -/
def claimC8Prop : Prop :=
  ∀ (cfg : RTConfig) (w sp : List EssReal → List EssReal),
    computeRT cfg w sp [] ≠ .error .emptyBandsAccess

/-- A pool holding "a" in the accumulating real sub-container and "b" in the
single-sequence-of-real sub-container. -/
def poolC5 : Pool :=
  { Pool.empty with poolReal := [("a", [1, 2])], poolSingleVectorReal := [("b", [3])] }

/-- A pool holding "x" in the accumulating real sub-container. -/
def poolC6w : Pool := { Pool.empty with poolReal := [("x", [1])] }

/-- A deliberately conflicted pool: "foo" lives in two sub-containers at once
(an I1 violation) and "foo.kid" makes "foo" a namespace parent (an I2
violation). -/
def poolC10w : Pool :=
  { Pool.empty with
    poolReal := [("foo", [1])]
    poolVectorReal := [("foo.kid", [[2]])]
    poolSingleReal := [("foo", 5)] }

/-- A stage with stale buffered data and a pending completion signal, used to
show reset independence. -/
def stageDirty : RTStreamStage :=
  ⟨{ Pool.empty with poolVectorReal := [("internal.mel_bands", [[9, 9, 9]])] }, true⟩

theorem mget_mset_self {α : Type} (m : AMap α) (n : String) (v : α) :
    mget (mset m n v) n = some v := by
  induction m with
  | nil => simp [mget, mset]
  | cons kv rest ih =>
    obtain ⟨k, w⟩ := kv
    by_cases h : k = n
    · simp [mset, mget, h]
    · simp [mset, mget, h, ih]

theorem mset_mget_self {α : Type} (m : AMap α) (n : String) (v : α)
    (h : mget m n = some v) : mset m n v = m := by
  induction m with
  | nil => simp [mget] at h
  | cons kv rest ih =>
    obtain ⟨k, w⟩ := kv
    by_cases hk : k = n
    · subst hk
      simp [mget] at h
      simp [mset, h]
    · simp [mget, hk] at h
      simp [mset, hk, ih h]

theorem mset_mset {α : Type} (m : AMap α) (n : String) (v w : α) :
    mset (mset m n v) n w = mset m n w := by
  induction m with
  | nil => simp [mset]
  | cons kv rest ih =>
    obtain ⟨k, u⟩ := kv
    by_cases hk : k = n
    · simp [mset, hk]
    · simp [mset, hk, ih]

theorem mkeys_mset_none {α : Type} (m : AMap α) (n : String) (v : α)
    (h : mget m n = none) : mkeys (mset m n v) = mkeys m ++ [n] := by
  induction m with
  | nil => simp [mset, mkeys]
  | cons kv rest ih =>
    obtain ⟨k, w⟩ := kv
    by_cases hk : k = n
    · simp [mget, hk] at h
    · simp [mget, hk] at h
      simp only [mset, if_neg hk, mkeys, List.map_cons, List.cons_append]
      exact congrArg _ (by simpa [mkeys] using ih h)

theorem mkeys_mset_some {α : Type} (m : AMap α) (n : String) (v w : α)
    (h : mget m n = some w) : mkeys (mset m n v) = mkeys m := by
  induction m with
  | nil => simp [mget] at h
  | cons kv rest ih =>
    obtain ⟨k, u⟩ := kv
    by_cases hk : k = n
    · subst hk; simp [mset, mkeys]
    · simp [mget, hk] at h
      simp only [mset, if_neg hk, mkeys, List.map_cons]
      exact congrArg _ (by simpa [mkeys] using ih h)

theorem nsConflict_append (name : String) (l1 l2 : List String) :
    nsConflict name (l1 ++ l2) = (nsConflict name l1 || nsConflict name l2) := by
  simp [nsConflict, List.any_append]

theorem nsConflict_self_singleton (name : String) : nsConflict name [name] = false := by
  simp [nsConflict]

theorem validKey_mset {α : Type} (others : List String) (own : AMap (List α))
    (name : String) (x : List α) :
    validKey others (others ++ mkeys (mset own name x)) name
      = validKey others (others ++ mkeys own) name := by
  cases h : mget own name with
  | some w => rw [mkeys_mset_some own name x w h]
  | none =>
    rw [mkeys_mset_none own name x h]
    simp [validKey, nsConflict_append, nsConflict_self_singleton]

theorem foldl_accStep_error {α : Type} (others : List String) (name : String)
    (l : List α) (e : PoolError) :
    l.foldl (accStep others name) (.error e) = .error e := by
  induction l with
  | nil => rfl
  | cons v rest ih => rw [List.foldl_cons]; exact ih

theorem foldl_poolStep_error {β : Type} (addOp : Pool → String → β → Except PoolError Pool)
    (n : String) (l : List β) (e : PoolError) :
    l.foldl (poolStep addOp n) (.error e) = .error e := by
  induction l with
  | nil => rfl
  | cons v rest ih => rw [List.foldl_cons]; exact ih

theorem foldl_accStep_present {α : Type} (others : List String) (name : String) :
    ∀ (vs : List α) (own : AMap (List α)) (v0 : List α),
      mget own name = some v0 →
      validKey others (others ++ mkeys own) name = .ok () →
      vs.foldl (accStep others name) (.ok own) = .ok (mset own name (v0 ++ vs)) := by
  intro vs
  induction vs with
  | nil =>
    intro own v0 h _hv
    simp [mset_mget_self own name v0 h]
  | cons v rest ih =>
    intro own v0 h hv
    have hstep : accStep others name (.ok own) v = .ok (mset own name (v0 ++ [v])) := by
      simp [accStep, addAcc, hv, h]
    rw [List.foldl_cons, hstep]
    have h2 : mget (mset own name (v0 ++ [v])) name = some (v0 ++ [v]) :=
      mget_mset_self own name (v0 ++ [v])
    have hv2 : validKey others (others ++ mkeys (mset own name (v0 ++ [v]))) name = .ok () := by
      rw [validKey_mset]; exact hv
    rw [ih (mset own name (v0 ++ [v])) (v0 ++ [v]) h2 hv2, mset_mset]
    simp

theorem appendAcc_eq_repeated_add {α : Type} (others : List String) (own : AMap (List α))
    (name : String) (vs : List α) (hvs : vs ≠ [])
    (hval : mget own name ≠ none → validKey others (others ++ mkeys own) name = .ok ()) :
    appendAcc others own name vs = vs.foldl (accStep others name) (.ok own) := by
  cases h : mget own name with
  | some v0 =>
    rw [foldl_accStep_present others name vs own v0 h (hval (by simp [h]))]
    simp [appendAcc, h]
  | none =>
    obtain ⟨v, rest, rfl⟩ : ∃ v rest, vs = v :: rest := by
      cases vs with
      | nil => exact absurd rfl hvs
      | cons v rest => exact ⟨v, rest, rfl⟩
    cases hv : validKey others (others ++ mkeys own) name with
    | error e =>
      have hstep : accStep others name (.ok own) v = .error e := by
        simp [accStep, addAcc, hv]
      rw [List.foldl_cons, hstep, foldl_accStep_error]
      simp [appendAcc, h, hv]
    | ok u =>
      cases u
      have hstep : accStep others name (.ok own) v = .ok (mset own name [v]) := by
        simp [accStep, addAcc, hv, h]
      rw [List.foldl_cons, hstep]
      have h2 : mget (mset own name [v]) name = some [v] := mget_mset_self own name [v]
      have hv2 : validKey others (others ++ mkeys (mset own name [v])) name = .ok () := by
        rw [validKey_mset]; exact hv
      rw [foldl_accStep_present others name rest (mset own name [v]) [v] h2 hv2, mset_mset]
      simp [appendAcc, h, hv]

theorem appendAcc_fast {α : Type} (others : List String) (own : AMap (List α))
    (name : String) (vs : List α) (v : List α) (h : mget own name = some v) :
    appendAcc others own name vs = .ok (mset own name (v ++ vs)) := by
  simp [appendAcc, h]

theorem appendAcc_newConflict {α : Type} (others : List String) (own : AMap (List α))
    (name : String) (vs : List α) (h : mget own name = none) (hm : name ∈ others) :
    appendAcc others own name vs = .error .TypeConflict := by
  simp [appendAcc, h, validKey, hm]

theorem foldl_addReal_bridge (n : String) :
    ∀ (vs : List EssReal) (p : Pool) (m : AMap (List EssReal)),
      vs.foldl (poolStep Pool.addReal n) (.ok { p with poolReal := m })
        = (vs.foldl (accStep p.otherNamesReal n) (.ok m)).map
            fun m2 => { p with poolReal := m2 } := by
  intro vs
  induction vs with
  | nil => intro p m; rfl
  | cons v rest ih =>
    intro p m
    rw [List.foldl_cons, List.foldl_cons]
    have hstep : poolStep Pool.addReal n (.ok { p with poolReal := m }) v
        = (addAcc p.otherNamesReal m n v).map fun m2 => { p with poolReal := m2 } := rfl
    rw [hstep]
    cases haa : addAcc p.otherNamesReal m n v with
    | error e =>
      have h1 : accStep p.otherNamesReal n (.ok m) v = .error e := by simp [accStep, haa]
      rw [h1, foldl_accStep_error]
      simp [Except.map, foldl_poolStep_error]
    | ok m2 =>
      have h1 : accStep p.otherNamesReal n (.ok m) v = .ok m2 := by simp [accStep, haa]
      rw [h1]
      have h2 : (Except.map (fun m2 => { p with poolReal := m2 })
          (Except.ok m2 : Except PoolError (AMap (List EssReal))))
          = .ok { p with poolReal := m2 } := rfl
      rw [h2]
      exact ih p m2

theorem foldl_addVectorReal_bridge (n : String) :
    ∀ (vs : List (List EssReal)) (p : Pool) (m : AMap (List (List EssReal))),
      vs.foldl (poolStep Pool.addVectorReal n) (.ok { p with poolVectorReal := m })
        = (vs.foldl (accStep p.otherNamesVectorReal n) (.ok m)).map
            fun m2 => { p with poolVectorReal := m2 } := by
  intro vs
  induction vs with
  | nil => intro p m; rfl
  | cons v rest ih =>
    intro p m
    rw [List.foldl_cons, List.foldl_cons]
    have hstep : poolStep Pool.addVectorReal n (.ok { p with poolVectorReal := m }) v
        = (addAcc p.otherNamesVectorReal m n v).map fun m2 => { p with poolVectorReal := m2 } := rfl
    rw [hstep]
    cases haa : addAcc p.otherNamesVectorReal m n v with
    | error e =>
      have h1 : accStep p.otherNamesVectorReal n (.ok m) v = .error e := by simp [accStep, haa]
      rw [h1, foldl_accStep_error]
      simp [Except.map, foldl_poolStep_error]
    | ok m2 =>
      have h1 : accStep p.otherNamesVectorReal n (.ok m) v = .ok m2 := by simp [accStep, haa]
      rw [h1]
      have h2 : (Except.map (fun m2 => { p with poolVectorReal := m2 })
          (Except.ok m2 : Except PoolError (AMap (List (List EssReal)))))
          = .ok { p with poolVectorReal := m2 } := rfl
      rw [h2]
      exact ih p m2

theorem foldl_addString_bridge (n : String) :
    ∀ (vs : List String) (p : Pool) (m : AMap (List String)),
      vs.foldl (poolStep Pool.addString n) (.ok { p with poolString := m })
        = (vs.foldl (accStep p.otherNamesString n) (.ok m)).map
            fun m2 => { p with poolString := m2 } := by
  intro vs
  induction vs with
  | nil => intro p m; rfl
  | cons v rest ih =>
    intro p m
    rw [List.foldl_cons, List.foldl_cons]
    have hstep : poolStep Pool.addString n (.ok { p with poolString := m }) v
        = (addAcc p.otherNamesString m n v).map fun m2 => { p with poolString := m2 } := rfl
    rw [hstep]
    cases haa : addAcc p.otherNamesString m n v with
    | error e =>
      have h1 : accStep p.otherNamesString n (.ok m) v = .error e := by simp [accStep, haa]
      rw [h1, foldl_accStep_error]
      simp [Except.map, foldl_poolStep_error]
    | ok m2 =>
      have h1 : accStep p.otherNamesString n (.ok m) v = .ok m2 := by simp [accStep, haa]
      rw [h1]
      have h2 : (Except.map (fun m2 => { p with poolString := m2 })
          (Except.ok m2 : Except PoolError (AMap (List String))))
          = .ok { p with poolString := m2 } := rfl
      rw [h2]
      exact ih p m2

theorem foldl_addVectorString_bridge (n : String) :
    ∀ (vs : List (List String)) (p : Pool) (m : AMap (List (List String))),
      vs.foldl (poolStep Pool.addVectorString n) (.ok { p with poolVectorString := m })
        = (vs.foldl (accStep p.otherNamesVectorString n) (.ok m)).map
            fun m2 => { p with poolVectorString := m2 } := by
  intro vs
  induction vs with
  | nil => intro p m; rfl
  | cons v rest ih =>
    intro p m
    rw [List.foldl_cons, List.foldl_cons]
    have hstep : poolStep Pool.addVectorString n (.ok { p with poolVectorString := m }) v
        = (addAcc p.otherNamesVectorString m n v).map fun m2 => { p with poolVectorString := m2 } := rfl
    rw [hstep]
    cases haa : addAcc p.otherNamesVectorString m n v with
    | error e =>
      have h1 : accStep p.otherNamesVectorString n (.ok m) v = .error e := by simp [accStep, haa]
      rw [h1, foldl_accStep_error]
      simp [Except.map, foldl_poolStep_error]
    | ok m2 =>
      have h1 : accStep p.otherNamesVectorString n (.ok m) v = .ok m2 := by simp [accStep, haa]
      rw [h1]
      have h2 : (Except.map (fun m2 => { p with poolVectorString := m2 })
          (Except.ok m2 : Except PoolError (AMap (List (List String)))))
          = .ok { p with poolVectorString := m2 } := rfl
      rw [h2]
      exact ih p m2

theorem foldl_addStereoSample_bridge (n : String) :
    ∀ (vs : List StereoSampleT) (p : Pool) (m : AMap (List StereoSampleT)),
      vs.foldl (poolStep Pool.addStereoSample n) (.ok { p with poolStereoSample := m })
        = (vs.foldl (accStep p.otherNamesStereoSample n) (.ok m)).map
            fun m2 => { p with poolStereoSample := m2 } := by
  intro vs
  induction vs with
  | nil => intro p m; rfl
  | cons v rest ih =>
    intro p m
    rw [List.foldl_cons, List.foldl_cons]
    have hstep : poolStep Pool.addStereoSample n (.ok { p with poolStereoSample := m }) v
        = (addAcc p.otherNamesStereoSample m n v).map fun m2 => { p with poolStereoSample := m2 } := rfl
    rw [hstep]
    cases haa : addAcc p.otherNamesStereoSample m n v with
    | error e =>
      have h1 : accStep p.otherNamesStereoSample n (.ok m) v = .error e := by simp [accStep, haa]
      rw [h1, foldl_accStep_error]
      simp [Except.map, foldl_poolStep_error]
    | ok m2 =>
      have h1 : accStep p.otherNamesStereoSample n (.ok m) v = .ok m2 := by simp [accStep, haa]
      rw [h1]
      have h2 : (Except.map (fun m2 => { p with poolStereoSample := m2 })
          (Except.ok m2 : Except PoolError (AMap (List StereoSampleT))))
          = .ok { p with poolStereoSample := m2 } := rfl
      rw [h2]
      exact ih p m2

theorem appendReal_eq_repeated_add (p : Pool) (n : String) (vs : List EssReal)
    (hvs : vs ≠ [])
    (hval : mget p.poolReal n ≠ none → p.validKeyReal n = .ok ()) :
    p.appendReal n vs = vs.foldl (poolStep Pool.addReal n) (.ok p) := by
  have h := appendAcc_eq_repeated_add p.otherNamesReal p.poolReal n vs hvs hval
  calc p.appendReal n vs
      = (appendAcc p.otherNamesReal p.poolReal n vs).map
          (fun m => { p with poolReal := m }) := rfl
    _ = (vs.foldl (accStep p.otherNamesReal n) (.ok p.poolReal)).map
          (fun m => { p with poolReal := m }) := by rw [h]
    _ = vs.foldl (poolStep Pool.addReal n) (.ok p) :=
          (foldl_addReal_bridge n vs p p.poolReal).symm

theorem appendVectorReal_eq_repeated_add (p : Pool) (n : String) (vs : List (List EssReal))
    (hvs : vs ≠ [])
    (hval : mget p.poolVectorReal n ≠ none → p.validKeyVectorReal n = .ok ()) :
    p.appendVectorReal n vs = vs.foldl (poolStep Pool.addVectorReal n) (.ok p) := by
  have h := appendAcc_eq_repeated_add p.otherNamesVectorReal p.poolVectorReal n vs hvs hval
  calc p.appendVectorReal n vs
      = (appendAcc p.otherNamesVectorReal p.poolVectorReal n vs).map
          (fun m => { p with poolVectorReal := m }) := rfl
    _ = (vs.foldl (accStep p.otherNamesVectorReal n) (.ok p.poolVectorReal)).map
          (fun m => { p with poolVectorReal := m }) := by rw [h]
    _ = vs.foldl (poolStep Pool.addVectorReal n) (.ok p) :=
          (foldl_addVectorReal_bridge n vs p p.poolVectorReal).symm

theorem appendString_eq_repeated_add (p : Pool) (n : String) (vs : List String)
    (hvs : vs ≠ [])
    (hval : mget p.poolString n ≠ none → p.validKeyString n = .ok ()) :
    p.appendString n vs = vs.foldl (poolStep Pool.addString n) (.ok p) := by
  have h := appendAcc_eq_repeated_add p.otherNamesString p.poolString n vs hvs hval
  calc p.appendString n vs
      = (appendAcc p.otherNamesString p.poolString n vs).map
          (fun m => { p with poolString := m }) := rfl
    _ = (vs.foldl (accStep p.otherNamesString n) (.ok p.poolString)).map
          (fun m => { p with poolString := m }) := by rw [h]
    _ = vs.foldl (poolStep Pool.addString n) (.ok p) :=
          (foldl_addString_bridge n vs p p.poolString).symm

theorem appendVectorString_eq_repeated_add (p : Pool) (n : String) (vs : List (List String))
    (hvs : vs ≠ [])
    (hval : mget p.poolVectorString n ≠ none → p.validKeyVectorString n = .ok ()) :
    p.appendVectorString n vs = vs.foldl (poolStep Pool.addVectorString n) (.ok p) := by
  have h := appendAcc_eq_repeated_add p.otherNamesVectorString p.poolVectorString n vs hvs hval
  calc p.appendVectorString n vs
      = (appendAcc p.otherNamesVectorString p.poolVectorString n vs).map
          (fun m => { p with poolVectorString := m }) := rfl
    _ = (vs.foldl (accStep p.otherNamesVectorString n) (.ok p.poolVectorString)).map
          (fun m => { p with poolVectorString := m }) := by rw [h]
    _ = vs.foldl (poolStep Pool.addVectorString n) (.ok p) :=
          (foldl_addVectorString_bridge n vs p p.poolVectorString).symm

theorem appendStereoSample_eq_repeated_add (p : Pool) (n : String) (vs : List StereoSampleT)
    (hvs : vs ≠ [])
    (hval : mget p.poolStereoSample n ≠ none → p.validKeyStereoSample n = .ok ()) :
    p.appendStereoSample n vs = vs.foldl (poolStep Pool.addStereoSample n) (.ok p) := by
  have h := appendAcc_eq_repeated_add p.otherNamesStereoSample p.poolStereoSample n vs hvs hval
  calc p.appendStereoSample n vs
      = (appendAcc p.otherNamesStereoSample p.poolStereoSample n vs).map
          (fun m => { p with poolStereoSample := m }) := rfl
    _ = (vs.foldl (accStep p.otherNamesStereoSample n) (.ok p.poolStereoSample)).map
          (fun m => { p with poolStereoSample := m }) := by rw [h]
    _ = vs.foldl (poolStep Pool.addStereoSample n) (.ok p) :=
          (foldl_addStereoSample_bridge n vs p p.poolStereoSample).symm

theorem getD_map_range {α : Type} (f : ℕ → α) (d : α) (n b : ℕ) (h : b < n) :
    ((List.range n).map f).getD b d = f b := by
  have h1 : b < ((List.range n).map f).length := by simpa using h
  rw [List.getD_eq_getElem _ _ h1]
  simp

theorem getD_map {α β : Type} (l : List α) (f : α → β) (d : α) (d2 : β) (k : ℕ)
    (hk : k < l.length) : (l.map f).getD k d2 = f (l.getD k d) := by
  have h1 : k < (l.map f).length := by simpa using hk
  rw [List.getD_eq_getElem _ _ h1, List.getD_eq_getElem _ _ hk]
  simp

theorem range_map_getD {α β : Type} (l : List α) (d : α) (f : α → β) :
    (List.range l.length).map (fun i => f (l.getD i d)) = l.map f := by
  induction l with
  | nil => rfl
  | cons a t ih =>
    rw [List.length_cons, List.range_succ_eq_map, List.map_cons, List.map_map]
    congr 1

theorem writeBins_length (dst src : List EssReal) :
    (writeBins dst src).length = dst.length := by
  simp [writeBins]

theorem writeBins_full (dst src : List EssReal) (h : src.length = dst.length) :
    writeBins dst src = src.map fun x => x * x := by
  unfold writeBins
  rw [← h]
  have hcong : ∀ bin ∈ List.range src.length,
      (if bin < src.length then getQ src bin * getQ src bin else getQ dst bin)
        = getQ src bin * getQ src bin := by
    intro bin hb
    rw [if_pos (List.mem_range.mp hb)]
  rw [List.map_congr_left hcong]
  exact range_map_getD src 0 fun x => x * x

theorem foldl_writeBins_length (g : ℕ → List EssReal) :
    ∀ (l : List ℕ) (acc : List EssReal),
      (l.foldl (fun a b => writeBins a (g b)) acc).length = acc.length := by
  intro l
  induction l with
  | nil => intro acc; rfl
  | cons b t ih => intro acc; rw [List.foldl_cons, ih, writeBins_length]

theorem windowEntry_length (cfg : RTConfig) (w sp : List EssReal → List EssReal)
    (deriv : List (List EssReal)) (nFrames nBands i : ℕ) :
    (windowEntry cfg w sp deriv nFrames nBands i).length = cfg.frameSize / 2 + 1 := by
  unfold windowEntry
  rw [foldl_writeBins_length, List.length_replicate]

theorem windowEntry_eq_last (cfg : RTConfig) (w sp : List EssReal → List EssReal)
    (deriv : List (List EssReal)) (nFrames nBands i : ℕ) (hnB : 1 ≤ nBands)
    (hsp : ∀ f, (sp (w f)).length = cfg.frameSize / 2 + 1) :
    windowEntry cfg w sp deriv nFrames nBands i
      = bandSqSpectrum cfg w sp deriv nFrames (nBands - 1) i := by
  obtain ⟨m, rfl⟩ : ∃ m, nBands = m + 1 := ⟨nBands - 1, by omega⟩
  unfold windowEntry
  rw [List.range_succ, List.foldl_append, List.foldl_cons, List.foldl_nil]
  rw [writeBins_full]
  · simp [bandSqSpectrum]
  · rw [hsp, foldl_writeBins_length, List.length_replicate]

theorem mem_windowStartsAux (hop n : ℕ) (hhop : 1 ≤ hop) :
    ∀ (fuel i : ℕ), n - i ≤ fuel →
      ∀ s, s ∈ windowStartsAux hop n i fuel ↔ ∃ k, s = i + k * hop ∧ s < n := by
  intro fuel
  induction fuel with
  | zero =>
    intro i hfi s
    simp only [windowStartsAux, List.not_mem_nil, false_iff]
    rintro ⟨k, rfl, hlt⟩
    omega
  | succ fuel ih =>
    intro i hfi s
    by_cases hin : i < n
    · rw [show windowStartsAux hop n i (fuel + 1)
          = i :: windowStartsAux hop n (i + hop) fuel from by
        simp [windowStartsAux, hin]]
      rw [List.mem_cons]
      have hih := ih (i + hop) (by omega) s
      constructor
      · rintro (rfl | hmem)
        · exact ⟨0, by simp, hin⟩
        · obtain ⟨k, hk, hlt⟩ := hih.mp hmem
          exact ⟨k + 1, by rw [Nat.succ_mul]; omega, hlt⟩
      · rintro ⟨k, rfl, hlt⟩
        cases k with
        | zero => left; simp
        | succ k2 =>
          right
          refine hih.mpr ⟨k2, ?_, hlt⟩
          rw [Nat.succ_mul]
          omega
    · rw [show windowStartsAux hop n i (fuel + 1) = [] from by simp [windowStartsAux, hin]]
      simp only [List.not_mem_nil, false_iff]
      rintro ⟨k, rfl, hlt⟩
      omega

theorem mem_windowStarts (hop n : ℕ) (hhop : 1 ≤ hop) (s : ℕ) :
    s ∈ windowStarts hop n ↔ ∃ k, s = k * hop ∧ s < n := by
  unfold windowStarts
  rw [mem_windowStartsAux hop n hhop n 0 (by omega) s]
  simp

theorem head_windowStartsAux (hop n i fuel : ℕ) :
    (windowStartsAux hop n i (fuel + 1)).head? = if i < n then some i else none := by
  by_cases hin : i < n <;> simp [windowStartsAux, hin]

theorem chain_windowStartsAux (hop n : ℕ) :
    ∀ (fuel i : ℕ),
      List.Chain' (fun a b => b = a + hop) (windowStartsAux hop n i fuel) := by
  intro fuel
  induction fuel with
  | zero => intro i; simp [windowStartsAux]
  | succ fuel ih =>
    intro i
    by_cases hin : i < n
    · rw [show windowStartsAux hop n i (fuel + 1)
          = i :: windowStartsAux hop n (i + hop) fuel from by
        simp [windowStartsAux, hin]]
      rw [List.chain'_cons']
      refine ⟨?_, ih (i + hop)⟩
      intro y hy
      cases fuel with
      | zero => simp [windowStartsAux] at hy
      | succ fuel2 =>
        rw [head_windowStartsAux] at hy
        by_cases h2 : i + hop < n
        · rw [if_pos h2] at hy
          simp at hy
          omega
        · rw [if_neg h2] at hy
          simp at hy
    · rw [show windowStartsAux hop n i (fuel + 1) = [] from by simp [windowStartsAux, hin]]
      simp

theorem chain_windowStarts (hop n : ℕ) :
    List.Chain' (fun a b => b = a + hop) (windowStarts hop n) :=
  chain_windowStartsAux hop n n 0

theorem windowStarts_cover (hop n fs : ℕ) (hhop : 1 ≤ hop) (hfs : hop ≤ fs)
    (d : ℕ) (hd : d < n) :
    ∃ s ∈ windowStarts hop n, ∃ j, j < fs ∧ s + j = d := by
  have hdm : d / hop * hop ≤ d := Nat.div_mul_le_self d hop
  have hsum : d / hop * hop + d % hop = d := by
    have h1 := Nat.div_add_mod d hop
    rw [Nat.mul_comm] at h1
    omega
  refine ⟨d / hop * hop, ?_, d % hop, ?_, hsum⟩
  · rw [mem_windowStarts hop n hhop]
    exact ⟨d / hop, rfl, by omega⟩
  · have := Nat.mod_lt d (show 0 < hop by omega)
    omega

theorem push_step (acc : List (List EssReal)) (b : Bool) (f : List EssReal) :
    RTStreamStage.push
        ⟨{ Pool.empty with poolVectorReal := [("internal.mel_bands", acc)] }, b⟩ f
      = ⟨{ Pool.empty with poolVectorReal := [("internal.mel_bands", acc ++ [f])] }, b⟩ := by
  have hadd : Pool.addVectorReal
      { Pool.empty with poolVectorReal := [("internal.mel_bands", acc)] }
      "internal.mel_bands" f
      = .ok { Pool.empty with poolVectorReal := [("internal.mel_bands", acc ++ [f])] } := by
    simp [Pool.addVectorReal, addAcc, validKey, Pool.otherNamesVectorReal, Pool.empty,
      mkeys, mget, mset, nsConflict, Except.map]
  simp [RTStreamStage.push, hadd]

theorem pushAll_vr (fs : List (List EssReal)) :
    ∀ (acc : List (List EssReal)) (b : Bool),
      pushAll ⟨{ Pool.empty with poolVectorReal := [("internal.mel_bands", acc)] }, b⟩ fs
        = ⟨{ Pool.empty with poolVectorReal := [("internal.mel_bands", acc ++ fs)] }, b⟩ := by
  induction fs with
  | nil => intro acc b; simp [pushAll]
  | cons f rest ih =>
    intro acc b
    have h1 : pushAll
        ⟨{ Pool.empty with poolVectorReal := [("internal.mel_bands", acc)] }, b⟩ (f :: rest)
        = pushAll (RTStreamStage.push
            ⟨{ Pool.empty with poolVectorReal := [("internal.mel_bands", acc)] }, b⟩ f)
            rest := rfl
    rw [h1, push_step, ih]
    simp

theorem push_init (f : List EssReal) :
    RTStreamStage.push RTStreamStage.init f
      = ⟨{ Pool.empty with poolVectorReal := [("internal.mel_bands", [f])] }, false⟩ := by
  have hadd : Pool.addVectorReal Pool.empty "internal.mel_bands" f
      = .ok { Pool.empty with poolVectorReal := [("internal.mel_bands", [f])] } := by
    simp [Pool.addVectorReal, addAcc, validKey, Pool.otherNamesVectorReal, Pool.empty,
      mkeys, mget, mset, nsConflict, Except.map]
  simp [RTStreamStage.push, RTStreamStage.init, hadd]

theorem lockOrder_pairwise :
    List.Pairwise (fun a b => lockIdx a < lockIdx b) globalLockOrder := by
  decide

theorem ordered_no_crossWait (t1 t2 : List SubPool)
    (h1 : List.Pairwise (fun a b => lockIdx a < lockIdx b) t1)
    (h2 : List.Pairwise (fun a b => lockIdx a < lockIdx b) t2) :
    crossWaitB t1 t2 = false := by
  rw [Bool.eq_false_iff]
  intro hcw
  simp only [crossWaitB, List.any_eq_true, List.mem_range, Bool.and_eq_true,
    decide_eq_true_eq] at hcw
  obtain ⟨k1, hk1, k2, hk2, hm1, hm2⟩ := hcw
  obtain ⟨j1, hj1, he1⟩ := List.getElem_of_mem hm1
  obtain ⟨j2, hj2, he2⟩ := List.getElem_of_mem hm2
  obtain ⟨hj1k, hj1len⟩ : j1 < k2 ∧ j1 < t2.length := by
    rw [List.length_take] at hj1
    omega
  obtain ⟨hj2k, hj2len⟩ : j2 < k1 ∧ j2 < t1.length := by
    rw [List.length_take] at hj2
    omega
  have he1a : t2[j1] = t1.getD k1 .sReal := by
    rw [← he1]
    exact (List.getElem_take t2).symm
  have he2a : t1[j2] = t2.getD k2 .sReal := by
    rw [← he2]
    exact (List.getElem_take t1).symm
  have hd1 : t1.getD k1 .sReal = t1[k1] := List.getD_eq_getElem t1 .sReal hk1
  have hd2 : t2.getD k2 .sReal = t2[k2] := List.getD_eq_getElem t2 .sReal hk2
  have p2 := List.pairwise_iff_getElem.mp h2 j1 k2 hj1len hk2 hj1k
  have p1 := List.pairwise_iff_getElem.mp h1 j2 k1 hj2len hk1 hj2k
  rw [he1a, hd1] at p2
  rw [he2a, hd2] at p1
  omega

/-- Claim C3: the derivative step of the batch transform, on an input of
`nFrames ≥ 1` frames over `nBands` bands, yields for every band a sequence of
length `nFrames` whose entry 0 is 0 and whose entry `i > 0` is
`frame[i][band] - frame[i-1][band]` (first difference along the frame axis). -/
theorem claim_C3 (bands : List (List EssReal)) (nBands : ℕ) (hn : 1 ≤ bands.length) :
    (bandsDerivative bands nBands).length = nBands ∧
    ∀ b, b < nBands →
      ((bandsDerivative bands nBands).getD b []).length = bands.length ∧
      ((bandsDerivative bands nBands).getD b []).getD 0 0 = 0 ∧
      ∀ i, 0 < i → i < bands.length →
        ((bandsDerivative bands nBands).getD b []).getD i 0 =
          bandVal bands i b - bandVal bands (i - 1) b := by
  constructor
  · simp [bandsDerivative]
  · intro b hb
    have hrow : (bandsDerivative bands nBands).getD b [] =
        (List.range bands.length).map fun frame =>
          if frame = 0 then 0 else bandVal bands frame b - bandVal bands (frame - 1) b := by
      unfold bandsDerivative
      exact getD_map_range _ _ _ _ hb
    rw [hrow]
    refine ⟨by simp, ?_, ?_⟩
    · rw [getD_map_range _ _ _ _ (by omega)]
      simp
    · intro i h0 hi
      rw [getD_map_range _ _ _ _ hi]
      rw [if_neg (by omega)]

/-- Witness for claim C3 at the worked example of spec section 8. -/
theorem claim_C3_witness :
    1 ≤ scenarioBands.length ∧
    ((bandsDerivative scenarioBands 3).getD 0 []).getD 2 0 =
      bandVal scenarioBands 2 0 - bandVal scenarioBands 1 0 :=
  ⟨by decide,
   (((claim_C3 scenarioBands 3 (by decide)).2 0 (by decide)).2.2) 2 (by decide) (by decide)⟩

/-- Claim C5: lookup of kind `vector<Real>` probes the accumulating real
sub-container first and returns its stored sequence when present, otherwise
probes the single-sequence-of-real sub-container, and fails with the not-found
error exactly when the name is absent from both; `contains<vector<Real>>` is
true iff the name is in at least one of the two. -/
theorem claim_C5 (p : Pool) (n : String) :
    (∀ v, mget p.poolReal n = some v → p.value_vr n = .ok v) ∧
    (mget p.poolReal n = none →
      ∀ v, mget p.poolSingleVectorReal n = some v → p.value_vr n = .ok v) ∧
    (p.value_vr n = .error .NotFound ↔
      mget p.poolReal n = none ∧ mget p.poolSingleVectorReal n = none) ∧
    (p.contains_vr n = true ↔
      (mget p.poolReal n).isSome ∨ (mget p.poolSingleVectorReal n).isSome) := by
  rcases h1 : mget p.poolReal n with _ | v1 <;>
    rcases h2 : mget p.poolSingleVectorReal n with _ | v2 <;>
      simp [Pool.value_vr, Pool.contains_vr, h1, h2]

/-- Witness for claim C5 on a concrete pool exercising both probes. -/
theorem claim_C5_witness :
    Pool.value_vr poolC5 "a" = .ok [1, 2] ∧ Pool.value_vr poolC5 "b" = .ok [3] :=
  ⟨(claim_C5 poolC5 "a").1 [1, 2] rfl,
   (claim_C5 poolC5 "b").2.1 rfl [3] rfl⟩

/-- Claim C8 fails on the code: on an empty input the batch transform reads
`bands[0].size()`, the band count of a nonexistent first frame, before
anything else; it neither performs a documented fail-fast check nor produces
an empty result. -/
theorem claim_C8_counterexample : ¬ claimC8Prop :=
  fun h => h ⟨2, 2⟩ wId spProbe rfl

/-- Claim C8 amended: for an input of frame count 0 the batch transform
unconditionally performs the out-of-bounds read of the first frame's band
count (undefined behaviour in C++, the error value of the embedding). -/
theorem claim_C8_amended (cfg : RTConfig) (w sp : List EssReal → List EssReal) :
    computeRT cfg w sp [] = .error .emptyBandsAccess := rfl

/-- Claim C9: the multi-sub-container operations (global clear, integrity
check, cross-store merge, and append's insert-new-name path) all acquire the
nine sub-container locks in the one fixed total order Real, VectorReal,
String, VectorString, Array2DReal, StereoSample, SingleReal, SingleString,
SingleVectorReal, release them in reverse order, and no two of them can
cross-wait (deadlock). -/
theorem claim_C9 :
    (clearLockTrace = globalLockOrder ∧ integrityLockTrace = globalLockOrder ∧
      mergeLockTrace = globalLockOrder ∧ appendNewNameLockTrace = globalLockOrder) ∧
    globalLockOrder = [SubPool.sReal, SubPool.sVectorReal, SubPool.sString,
      SubPool.sVectorString, SubPool.sArray2DReal, SubPool.sStereoSample,
      SubPool.sSingleReal, SubPool.sSingleString, SubPool.sSingleVectorReal] ∧
    (releasesOf clearLockTrace = globalLockOrder.reverse ∧
      releasesOf integrityLockTrace = globalLockOrder.reverse ∧
      releasesOf mergeLockTrace = globalLockOrder.reverse ∧
      releasesOf appendNewNameLockTrace = globalLockOrder.reverse) ∧
    crossWaitB globalLockOrder globalLockOrder = false :=
  ⟨⟨rfl, rfl, rfl, rfl⟩, rfl, ⟨rfl, rfl, rfl, rfl⟩,
   ordered_no_crossWait globalLockOrder globalLockOrder lockOrder_pairwise lockOrder_pairwise⟩

/-- Claim C2 fails on the code: its "the entire input is covered" clause is
false when `hopSize` exceeds `frameSize`; with `frameSize = 1`, `hopSize = 2`
and 2 frames, derivative index 1 lies in no window. -/
theorem claim_C2_counterexample : ¬ claimC2Prop := by
  intro h
  obtain ⟨-, -, hcov⟩ := h 1 2 2 (by omega) (by omega) (by omega)
  obtain ⟨s, hs, j, hj, hsum⟩ := hcov 1 (by omega)
  have hws : windowStarts 2 2 = [0] := rfl
  rw [hws] at hs
  have hs0 : s = 0 := List.mem_singleton.mp hs
  omega

/-- Claim C2 amended: windows of length `frameSize` are taken exactly at the
start offsets `0, hopSize, 2*hopSize, ...` that are strictly below `nFrames`
(so no trailing partial window is discarded), consecutive starts differ by
`hopSize`, positions past the last derivative index are zero-filled — and the
coverage clause holds provided `hopSize ≤ frameSize`. -/
theorem claim_C2_amended (fs hop n : ℕ) (hhop : 1 ≤ hop) (_hn : 1 ≤ n) :
    (∀ s, s ∈ windowStarts hop n ↔ ∃ k, s = k * hop ∧ s < n) ∧
    List.Chain' (fun a b => b = a + hop) (windowStarts hop n) ∧
    (∀ (deriv : List (List EssReal)) (band i : ℕ),
      (rhythmFrame deriv fs n band i).length = fs) ∧
    (∀ (deriv : List (List EssReal)) (band i j : ℕ), j < fs →
      (rhythmFrame deriv fs n band i).getD j 0 =
        if i + j < n then getQ (deriv.getD band []) (i + j) else 0) ∧
    (hop ≤ fs → ∀ d, d < n → ∃ s ∈ windowStarts hop n, ∃ j, j < fs ∧ s + j = d) := by
  refine ⟨mem_windowStarts hop n hhop, chain_windowStarts hop n, ?_, ?_, ?_⟩
  · intro deriv band i
    simp [rhythmFrame]
  · intro deriv band i j hj
    exact getD_map_range _ _ _ _ hj
  · intro hfs d hd
    exact windowStarts_cover hop n fs hhop hfs d hd

/-- Witness for claim C2 amended, in the worked-example configuration
(`frameSize = 2`, `hopSize = 2`, 4 frames): offset 2 is a window start, and
derivative index 3 is covered. -/
theorem claim_C2_amended_witness :
    2 ∈ windowStarts 2 4 ∧ (∃ s ∈ windowStarts 2 4, ∃ j, j < 2 ∧ s + j = 3) :=
  ⟨((claim_C2_amended 2 2 4 (by omega) (by omega)).1 2).mpr ⟨1, by omega, by omega⟩,
   (claim_C2_amended 2 2 4 (by omega) (by omega)).2.2.2.2 (by omega) 3 (by omega)⟩

/-- Claim C1 fails on the code: in the band loop every band writes its squared
spectrum into the *same* `bandSpectrum` vector (`bandSpectrum[bin] = ...`), so
the emitted per-window entry is one single spectrum — the last band's — not
one sequence of squared bins per band.  In the worked example (3 bands,
4 frames, frameSize = hopSize = 2) with the identity window and the
sum/difference spectrum, window 0's entry is `[0, 0]` while band 0's squared
spectrum is `[1, 1]`: the bin value 1 of band 0 does not occur in the entry. -/
theorem claim_C1_counterexample : ¬ claimC1Prop ⟨2, 2⟩ wId spProbe scenarioBands := by
  intro h
  obtain ⟨out, hout, _hlen, hcont⟩ := h
  have hc : computeRT ⟨2, 2⟩ wId spProbe scenarioBands = .ok [[0, 0], [4, 4]] := rfl
  have hout2 : out = [[0, 0], [4, 4]] := by
    have h2 := hc.symm.trans hout
    injection h2 with h3
    exact h3.symm
  subst hout2
  have h1 : (1 : EssReal) ∈ bandSqSpectrum ⟨2, 2⟩ wId spProbe
      (bandsDerivative scenarioBands (scenarioBands.headD []).length) scenarioBands.length 0
      ((windowStarts 2 scenarioBands.length).getD 0 0) := by decide
  have h2 := hcont 0 (by decide) 0 (by decide) 1 h1
  exact absurd h2 (by decide)

/-- Claim C1 amended: for every nonempty input with at least one band, when
the spectrum collaborator honours its `frameSize/2 + 1` length contract, the
batch output has one entry per window position and each entry is a *single*
sequence of `frameSize/2 + 1` squared spectral bins equal to the squared
spectrum of the last band (band `nBands - 1`), the earlier bands' spectra
having been overwritten; in the worked example the result has exactly 2
entries, each a single band-spectrum of length 2. -/
theorem claim_C1_amended (cfg : RTConfig) (w sp : List EssReal → List EssReal)
    (bands : List (List EssReal)) (hb : bands ≠ [])
    (hband : 1 ≤ (bands.headD []).length)
    (hsp : ∀ f, (sp (w f)).length = cfg.frameSize / 2 + 1) :
    ∃ out, computeRT cfg w sp bands = .ok out ∧
      out.length = (windowStarts cfg.hopSize bands.length).length ∧
      (∀ e ∈ out, e.length = cfg.frameSize / 2 + 1) ∧
      ∀ k, k < out.length →
        out.getD k [] = bandSqSpectrum cfg w sp
          (bandsDerivative bands (bands.headD []).length) bands.length
          ((bands.headD []).length - 1)
          ((windowStarts cfg.hopSize bands.length).getD k 0) := by
  have hlen0 : ¬ bands.length = 0 := by
    intro h
    exact hb (List.length_eq_zero.mp h)
  refine ⟨(windowStarts cfg.hopSize bands.length).map fun i =>
      windowEntry cfg w sp (bandsDerivative bands (bands.headD []).length)
        bands.length (bands.headD []).length i, ?_, ?_, ?_, ?_⟩
  · unfold computeRT
    rw [if_neg hlen0]
  · simp
  · intro e he
    obtain ⟨i, _, rfl⟩ := List.mem_map.mp he
    exact windowEntry_length cfg w sp _ _ _ i
  · intro k hk
    have hk2 : k < (windowStarts cfg.hopSize bands.length).length := by
      simpa using hk
    rw [getD_map _ _ 0 [] k hk2]
    exact windowEntry_eq_last cfg w sp _ bands.length _ _ hband hsp

/-- Witness for claim C1 amended at the worked example of spec section 8. -/
theorem claim_C1_amended_witness :
    scenarioBands ≠ [] ∧
    (∃ out, computeRT ⟨2, 2⟩ wId spProbe scenarioBands = .ok out ∧
      out.length = (windowStarts 2 scenarioBands.length).length ∧
      (∀ e ∈ out, e.length = 2 / 2 + 1) ∧
      ∀ k, k < out.length →
        out.getD k [] = bandSqSpectrum ⟨2, 2⟩ wId spProbe
          (bandsDerivative scenarioBands (scenarioBands.headD []).length)
          scenarioBands.length ((scenarioBands.headD []).length - 1)
          ((windowStarts 2 scenarioBands.length).getD k 0)) :=
  ⟨by decide,
   claim_C1_amended ⟨2, 2⟩ wId spProbe scenarioBands (by decide) (by decide) fun f => rfl⟩

/-- Claim C4 against the code: while completion has not been signalled,
`process()` touches nothing and returns PASS as claimed; but once completion
is signalled, `process()` calls `_rhythmAlgo->input("rhythm")` to bind the
result buffer — and the wrapped standard algorithm has no *input* named
"rhythm" (its input is "melBands"; "rhythm" is its output) — so the call
fails before any batch is computed and before anything is pushed, instead of
pushing one item and returning OK. -/
theorem claim_C4_divergence :
    (∀ (pool : Pool) (cfg : RTConfig) (w sp : List EssReal → List EssReal),
        RTprocess cfg w sp ⟨pool, false⟩ = .ok (.PASS, [], ⟨pool, false⟩)) ∧
    RTprocess ⟨2, 2⟩ wId spProbe (signalComplete (pushAll RTStreamStage.init scenarioBands))
      = .error (.noInputNamed "rhythm") := by
  constructor
  · intro pool cfg w sp
    rfl
  · rfl

/-- Claim C6: `append` for a kind with no specialization (the two-dimensional
real matrix kind) fails with the unsupported error and leaves the store
unchanged; for each of the five supported kinds, on a nonempty value sequence
whose name passes key validation whenever it is already present, `append`
coincides with the corresponding repeated `add`. -/
theorem claim_C6 :
    (∀ (p : Pool) (n : String) (vs : List Arr2DReal),
        p.append2DReal n vs = .error .Unsupported ∧ runOp p (p.append2DReal n vs) = p) ∧
    (∀ (p : Pool) (n : String) (vs : List EssReal), vs ≠ [] →
        (mget p.poolReal n ≠ none → p.validKeyReal n = .ok ()) →
        p.appendReal n vs = vs.foldl (poolStep Pool.addReal n) (.ok p)) ∧
    (∀ (p : Pool) (n : String) (vs : List (List EssReal)), vs ≠ [] →
        (mget p.poolVectorReal n ≠ none → p.validKeyVectorReal n = .ok ()) →
        p.appendVectorReal n vs = vs.foldl (poolStep Pool.addVectorReal n) (.ok p)) ∧
    (∀ (p : Pool) (n : String) (vs : List String), vs ≠ [] →
        (mget p.poolString n ≠ none → p.validKeyString n = .ok ()) →
        p.appendString n vs = vs.foldl (poolStep Pool.addString n) (.ok p)) ∧
    (∀ (p : Pool) (n : String) (vs : List (List String)), vs ≠ [] →
        (mget p.poolVectorString n ≠ none → p.validKeyVectorString n = .ok ()) →
        p.appendVectorString n vs = vs.foldl (poolStep Pool.addVectorString n) (.ok p)) ∧
    (∀ (p : Pool) (n : String) (vs : List StereoSampleT), vs ≠ [] →
        (mget p.poolStereoSample n ≠ none → p.validKeyStereoSample n = .ok ()) →
        p.appendStereoSample n vs = vs.foldl (poolStep Pool.addStereoSample n) (.ok p)) :=
  ⟨fun _ _ _ => ⟨rfl, rfl⟩,
   fun p n vs h1 h2 => appendReal_eq_repeated_add p n vs h1 h2,
   fun p n vs h1 h2 => appendVectorReal_eq_repeated_add p n vs h1 h2,
   fun p n vs h1 h2 => appendString_eq_repeated_add p n vs h1 h2,
   fun p n vs h1 h2 => appendVectorString_eq_repeated_add p n vs h1 h2,
   fun p n vs h1 h2 => appendStereoSample_eq_repeated_add p n vs h1 h2⟩

/-- Witness for claim C6: the unsupported kind errors, and on a clean pool a
bulk append equals the repeated adds. -/
theorem claim_C6_witness :
    Pool.append2DReal poolC6w "y" [] = .error .Unsupported ∧
    Pool.appendReal poolC6w "x" [2, 3]
      = [2, 3].foldl (poolStep Pool.addReal "x") (.ok poolC6w) :=
  ⟨(claim_C6.1 poolC6w "y" []).1,
   claim_C6.2.1 poolC6w "x" [2, 3] (by decide) fun _ => rfl⟩

/-- Claim C7: `reset()` clears the buffer via the store's `clear()` and
returns the stage to Idle, so a post-reset push/completion cycle is
independent of anything pushed before the reset: two stages reset from
arbitrary prior states agree on the post-push state, on the whole `process()`
outcome, and on the buffered batch contents (exactly the post-reset pushes,
in order). -/
theorem claim_C7 (s1 s2 : RTStreamStage) (fs : List (List EssReal)) (cfg : RTConfig)
    (w sp : List EssReal → List EssReal) :
    RTreset s1 = RTStreamStage.init ∧
    pushAll (RTreset s1) fs = pushAll (RTreset s2) fs ∧
    RTprocess cfg w sp (signalComplete (pushAll (RTreset s1) fs))
      = RTprocess cfg w sp (signalComplete (pushAll (RTreset s2) fs)) ∧
    (fs ≠ [] →
      (pushAll (RTreset s1) fs).pool.value_vvr "internal.mel_bands" = .ok fs) := by
  refine ⟨rfl, rfl, rfl, ?_⟩
  intro hfs
  obtain ⟨f, rest, rfl⟩ : ∃ f rest, fs = f :: rest := by
    cases fs with
    | nil => exact absurd rfl hfs
    | cons f rest => exact ⟨f, rest, rfl⟩
  have h0 : pushAll (RTreset s1) (f :: rest)
      = pushAll (RTStreamStage.push RTStreamStage.init f) rest := rfl
  rw [h0, push_init, pushAll_vr rest [f] false]
  simp [Pool.value_vvr, mget]

/-- Witness for claim C7: a stage with stale buffered data and a fresh stage,
reset and fed the worked-example frames, agree and buffer exactly those
frames. -/
theorem claim_C7_witness :
    RTreset stageDirty = RTStreamStage.init ∧
    (pushAll (RTreset stageDirty) scenarioBands).pool.value_vvr "internal.mel_bands"
      = .ok scenarioBands :=
  ⟨(claim_C7 stageDirty RTStreamStage.init scenarioBands ⟨2, 2⟩ wId spProbe).1,
   (claim_C7 stageDirty RTStreamStage.init scenarioBands ⟨2, 2⟩ wId spProbe).2.2.2
     (by decide)⟩

/-- Claim C10: for a name already present in the accumulating sub-container of
a supported kind, `append` concatenates the new values after the stored ones
and never fails — key validation is skipped entirely on this fast path, even
on pools violating type or namespace exclusivity — while on the insert-new-name
path validation is reached (a name living in another sub-container fails with
the type-conflict error). -/
theorem claim_C10 :
    (∀ (p : Pool) (n : String) (vs v : List EssReal), mget p.poolReal n = some v →
        p.appendReal n vs = .ok { p with poolReal := mset p.poolReal n (v ++ vs) }) ∧
    (∀ (p : Pool) (n : String) (vs : List EssReal), mget p.poolReal n = none →
        n ∈ p.otherNamesReal → p.appendReal n vs = .error .TypeConflict) ∧
    (∀ (p : Pool) (n : String) (vs : List (List EssReal)) v,
        mget p.poolVectorReal n = some v →
        p.appendVectorReal n vs
          = .ok { p with poolVectorReal := mset p.poolVectorReal n (v ++ vs) }) ∧
    (∀ (p : Pool) (n : String) (vs : List (List EssReal)), mget p.poolVectorReal n = none →
        n ∈ p.otherNamesVectorReal → p.appendVectorReal n vs = .error .TypeConflict) ∧
    (∀ (p : Pool) (n : String) (vs : List String) v, mget p.poolString n = some v →
        p.appendString n vs = .ok { p with poolString := mset p.poolString n (v ++ vs) }) ∧
    (∀ (p : Pool) (n : String) (vs : List String), mget p.poolString n = none →
        n ∈ p.otherNamesString → p.appendString n vs = .error .TypeConflict) ∧
    (∀ (p : Pool) (n : String) (vs : List (List String)) v,
        mget p.poolVectorString n = some v →
        p.appendVectorString n vs
          = .ok { p with poolVectorString := mset p.poolVectorString n (v ++ vs) }) ∧
    (∀ (p : Pool) (n : String) (vs : List (List String)), mget p.poolVectorString n = none →
        n ∈ p.otherNamesVectorString → p.appendVectorString n vs = .error .TypeConflict) ∧
    (∀ (p : Pool) (n : String) (vs : List StereoSampleT) v,
        mget p.poolStereoSample n = some v →
        p.appendStereoSample n vs
          = .ok { p with poolStereoSample := mset p.poolStereoSample n (v ++ vs) }) ∧
    (∀ (p : Pool) (n : String) (vs : List StereoSampleT), mget p.poolStereoSample n = none →
        n ∈ p.otherNamesStereoSample → p.appendStereoSample n vs = .error .TypeConflict) := by
  refine ⟨?_, ?_, ?_, ?_, ?_, ?_, ?_, ?_, ?_, ?_⟩
  · intro p n vs v h
    unfold Pool.appendReal
    rw [appendAcc_fast _ _ _ _ v h]
    rfl
  · intro p n vs h hm
    unfold Pool.appendReal
    rw [appendAcc_newConflict _ _ _ _ h hm]
    rfl
  · intro p n vs v h
    unfold Pool.appendVectorReal
    rw [appendAcc_fast _ _ _ _ v h]
    rfl
  · intro p n vs h hm
    unfold Pool.appendVectorReal
    rw [appendAcc_newConflict _ _ _ _ h hm]
    rfl
  · intro p n vs v h
    unfold Pool.appendString
    rw [appendAcc_fast _ _ _ _ v h]
    rfl
  · intro p n vs h hm
    unfold Pool.appendString
    rw [appendAcc_newConflict _ _ _ _ h hm]
    rfl
  · intro p n vs v h
    unfold Pool.appendVectorString
    rw [appendAcc_fast _ _ _ _ v h]
    rfl
  · intro p n vs h hm
    unfold Pool.appendVectorString
    rw [appendAcc_newConflict _ _ _ _ h hm]
    rfl
  · intro p n vs v h
    unfold Pool.appendStereoSample
    rw [appendAcc_fast _ _ _ _ v h]
    rfl
  · intro p n vs h hm
    unfold Pool.appendStereoSample
    rw [appendAcc_newConflict _ _ _ _ h hm]
    rfl

/-- Witness for claim C10 on a pool violating both type exclusivity ("foo" in
two sub-containers) and namespace exclusivity ("foo" has the child
"foo.kid"): the fast path still succeeds and concatenates, while the
insert-new-name path reaches validation and fails. -/
theorem claim_C10_witness :
    Pool.appendReal poolC10w "foo" [7]
      = .ok { poolC10w with poolReal := mset poolC10w.poolReal "foo" ([1] ++ [7]) } ∧
    Pool.appendReal poolC10w "foo.kid" [7] = .error .TypeConflict :=
  ⟨claim_C10.1 poolC10w "foo" [7] [1] rfl,
   claim_C10.2.1 poolC10w "foo.kid" [7] rfl (by decide)⟩
